/- Verification development for the text_distortion_augment repository.
   Shallow embedding of the beam-search decoder and helpers of model/model.py
   and of the training orchestrator of task/training.py, with theorems about
   the documented behaviour.  Scores are rationals extended with a bottom
   element standing for float minus infinity; the neural scoring pipeline
   (decoder forward pass, projections, log_softmax) is abstracted as an
   arbitrary per-step scoring function. -/
import Mathlib

unseal Rat.add Rat.mul Rat.sub Rat.inv

/-- A decoder score: a rational log-probability, or none standing for float -inf. -/
abbrev Score := Option ℚ

/-- Addition of scores; -inf absorbs, matching IEEE float addition with -inf. -/
def sAdd : Score → Score → Score
  | some a, some b => some (a + b)
  | _, _ => none

/-- The test `score < 0` of the repetition-penalty branch; -inf is negative. -/
def sIsNeg : Score → Bool
  | none => true
  | some a => decide (a < 0)

/-- Multiplication of a score by a (positive) penalty factor; -inf stays -inf. -/
def sMul : Score → ℚ → Score
  | none, _ => none
  | some a, p => some (a * p)

/-- Division of a score by a nonzero rational; -inf stays -inf. -/
def sDivQ : Score → ℚ → Score
  | none, _ => none
  | some a, p => some (a / p)

/-- Strict order on scores with -inf below every rational. -/
def sLt : Score → Score → Bool
  | none, none => false
  | none, some _ => true
  | some _, none => false
  | some a, some b => decide (a < b)

/-- Non-strict order on scores, defined as the negation of the reversed strict order. -/
def sLe (x y : Score) : Bool := !(sLt y x)

/-- The mutable state of TransformerModel.generate, field names as in the source:
    seqs, top_k_scores, scores_save, complete_seqs (a defaultdict of lists),
    complete_ind (a set of slot indices) and next_word_inds kept for the
    repetition penalty of the following step. -/
structure GenState where
  seqs : List (List Nat)
  top_k_scores : List Score
  scores_save : List Score
  complete_seqs : List (Nat × List Nat)
  complete_ind : List Nat
  next_word_inds : List Nat
deriving DecidableEq

/-- Lookup in the complete_seqs defaultdict; a missing key yields the empty list. -/
def dget (d : List (Nat × List Nat)) (i : Nat) : List Nat :=
  match d.find? (fun p => p.1 = i) with
  | some p => p.2
  | none => []

/-- Assignment complete_seqs[i] = v; the newest binding shadows older ones. -/
def dset (d : List (Nat × List Nat)) (i : Nat) (v : List Nat) : List (Nat × List Nat) :=
  (i, v) :: d

/-- Whether the pair p sorts before q in descending topk order
    (larger score first; on ties the smaller index first, as torch.topk returns). -/
def scoreBefore (p q : Nat × Score) : Bool :=
  sLt q.2 p.2 || (decide (p.2 = q.2) && decide (p.1 < q.1))

/-- Insertion step of the descending sort behind topk. -/
def insertDesc (p : Nat × Score) : List (Nat × Score) → List (Nat × Score)
  | [] => [p]
  | q :: rest => if scoreBefore p q then p :: q :: rest else q :: insertDesc p rest

/-- Descending sort of (index, score) pairs. -/
def sortDesc (l : List (Nat × Score)) : List (Nat × Score) :=
  l.foldr insertDesc []

/-- torch.topk over one row: the k best (index, score) pairs in descending order. -/
def topk (k : Nat) (row : List Score) : List (Nat × Score) :=
  (sortDesc row.enum).take k

/-- Python slicing l[::k]: every k-th element starting from the first; the
    counter argument holds the number of elements still to be skipped and
    starts at 0. -/
def everyNth (k : Nat) : Nat → List (List Score) → List (List Score)
  | _, [] => []
  | 0, a :: rest => a :: everyNth k (k - 1) rest
  | c + 1, _ :: rest => everyNth k c rest

/-- Apply the repetition penalty to the score of token j inside one row:
    multiplied by the factor when negative, divided by it otherwise. -/
def rowPenalize (pen : ℚ) (j : Nat) (row : List Score) : List Score :=
  row.set j (if sIsNeg (row.getD j none) then sMul (row.getD j none) pen
             else sDivQ (row.getD j none) pen)

/-- One iteration of the repetition-penalty loop, adjusting
    scores[ix][next_word_inds[ix]]. -/
def penalizeAt (next_ix : List Nat) (pen : ℚ) (sc : List (List Score)) (ix : Nat) :
    List (List Score) :=
  sc.set ix (rowPenalize pen (next_ix.getD ix 0) (sc.getD ix []))

/-- The repetition-penalty block: runs only when step >= 1 and the factor is
    nonzero, adjusting each slot at the token chosen in the previous step. -/
def applyRepPenalty (step : Nat) (pen : ℚ) (next_ix : List Nat)
    (sc : List (List Score)) : List (List Score) :=
  if 1 ≤ step ∧ pen ≠ 0 then
    (List.range next_ix.length).foldl (penalizeAt next_ix pen) sc
  else sc

/-- Slot indices whose newly chosen token is the end-of-sequence token. -/
def eosPositions (eosIdx : Nat) (next_inds : List Nat) : List Nat :=
  (List.range next_inds.length).filter (fun i => next_inds.getD i 0 = eosIdx)

/-- complete_ind_add: the end-of-sequence slots not already in complete_ind. -/
def addInd (eosIdx : Nat) (next_inds complete_ind : List Nat) : List Nat :=
  (eosPositions eosIdx next_inds).filter (fun i => i ∉ complete_ind)

/-- The complete-sequence bookkeeping of one decoding step: newly finished slot
    indices (those not already in complete_ind) get their running score stored
    in scores_save and their sequence stored in complete_seqs; already complete
    slots are left untouched. Returns (scores_save, complete_seqs, complete_ind). -/
def saveComplete (eosIdx : Nat) (next_inds : List Nat) (top_k : List Score)
    (seqs : List (List Nat)) (scores_save : List Score)
    (complete_seqs : List (Nat × List Nat)) (complete_ind : List Nat) :
    List Score × List (Nat × List Nat) × List Nat :=
  if eosIdx ∈ next_inds then
    if addInd eosIdx next_inds complete_ind ≠ [] then
      ((addInd eosIdx next_inds complete_ind).foldl
         (fun ss i => ss.set i (top_k.getD i none)) scores_save,
       (addInd eosIdx next_inds complete_ind).foldl
         (fun d i => dset d i (seqs.getD i [])) complete_seqs,
       complete_ind ++ addInd eosIdx next_inds complete_ind)
    else (scores_save, complete_seqs,
          complete_ind ++ addInd eosIdx next_inds complete_ind)
  else (scores_save, complete_seqs, complete_ind)

/-- Add the running cumulative log-probabilities (broadcast over the vocabulary
    axis) to the fresh per-token scores. -/
def addCum (top_k_scores : List Score) (sc : List (List Score)) : List (List Score) :=
  List.zipWith (fun t row => row.map (fun s => sAdd t s)) top_k_scores sc

/-- Step-0 candidate selection: slice scores[::beam_size], force the
    end-of-sequence column to -inf, and take the top beam_size per example. -/
def stepZeroSelect (K eosIdx : Nat) (sc : List (List Score)) :
    List (List (Nat × Score)) :=
  ((everyNth K 0 sc).map (fun row => row.set eosIdx none)).map (topk K)

/-- Later-step candidate selection: view each example as one row of
    beam_size * vocab_num scores and take the global top beam_size. -/
def stepPosSelect (B K : Nat) (sc : List (List Score)) : List (List (Nat × Score)) :=
  ((List.range B).map (fun j => ((sc.drop (j * K)).take K).flatten)).map (topk K)

/-- Flatten the per-example topk scores into the (B*K)-vector top_k_scores. -/
def tkValues (tkRows : List (List (Nat × Score))) : List Score :=
  (tkRows.map (fun r => r.map (fun p => p.2))).flatten

/-- Flatten the per-example topk flat indices into the (B*K)-vector top_k_words. -/
def tkWords (tkRows : List (List (Nat × Score))) : List Nat :=
  (tkRows.map (fun r => r.map (fun p => p.1))).flatten

/-- Per-step scores after log_softmax, repetition penalty and the addition of
    the running cumulative scores. -/
def stepScores (decode : Nat → List (List Nat) → List (List Score)) (pen : ℚ)
    (step : Nat) (st : GenState) : List (List Score) :=
  addCum st.top_k_scores (applyRepPenalty step pen st.next_word_inds (decode step st.seqs))

/-- Topk rows of the current step (step-0 and later-step branches). -/
def stepTKRows (B K eosIdx : Nat) (step : Nat) (sc : List (List Score)) :
    List (List (Nat × Score)) :=
  if step = 0 then stepZeroSelect K eosIdx sc else stepPosSelect B K sc

/-- Flat top_k_words of the current step. -/
def stepWords (decode : Nat → List (List Nat) → List (List Score))
    (B K eosIdx : Nat) (pen : ℚ) (step : Nat) (st : GenState) : List Nat :=
  tkWords (stepTKRows B K eosIdx step (stepScores decode pen step st))

/-- Flat top_k_scores of the current step. -/
def stepTopK (decode : Nat → List (List Nat) → List (List Score))
    (B K eosIdx : Nat) (pen : ℚ) (step : Nat) (st : GenState) : List Score :=
  tkValues (stepTKRows B K eosIdx step (stepScores decode pen step st))

/-- next_word_inds = top_k_words % vocab_num. -/
def stepNext (decode : Nat → List (List Nat) → List (List Score))
    (B K V eosIdx : Nat) (pen : ℚ) (step : Nat) (st : GenState) : List Nat :=
  (stepWords decode B K eosIdx pen step st).map (fun w => w % V)

/-- Reordered and extended sequences: gather by predecessor beam index
    (top_k_words // vocab_num, offset into the example block) and append the
    newly chosen token. -/
def stepSeqs (decode : Nat → List (List Nat) → List (List Score))
    (B K V eosIdx : Nat) (pen : ℚ) (step : Nat) (st : GenState) : List (List Nat) :=
  List.zipWith (fun s w => s ++ [w])
    ((List.range (B * K)).map (fun i =>
      st.seqs.getD
        (((stepWords decode B K eosIdx pen step st).map (fun w => w / V)).getD i 0
          + (i / K) * K) []))
    (stepNext decode B K V eosIdx pen step st)

/-- One full decoding step of TransformerModel.generate. -/
def stepFn (decode : Nat → List (List Nat) → List (List Score))
    (B K V eosIdx : Nat) (pen : ℚ) (step : Nat) (st : GenState) : GenState :=
  ⟨stepSeqs decode B K V eosIdx pen step st,
   stepTopK decode B K eosIdx pen step st,
   (saveComplete eosIdx (stepNext decode B K V eosIdx pen step st)
      (stepTopK decode B K eosIdx pen step st)
      (stepSeqs decode B K V eosIdx pen step st)
      st.scores_save st.complete_seqs st.complete_ind).1,
   (saveComplete eosIdx (stepNext decode B K V eosIdx pen step st)
      (stepTopK decode B K eosIdx pen step st)
      (stepSeqs decode B K V eosIdx pen step st)
      st.scores_save st.complete_seqs st.complete_ind).2.1,
   (saveComplete eosIdx (stepNext decode B K V eosIdx pen step st)
      (stepTopK decode B K eosIdx pen step st)
      (stepSeqs decode B K V eosIdx pen step st)
      st.scores_save st.complete_seqs st.complete_ind).2.2,
   stepNext decode B K V eosIdx pen step st⟩

/-- Initial decoding state: every slot holds the decoder start token, running
    and saved scores are zero, nothing is complete. -/
def initState (B K startTok : Nat) : GenState :=
  ⟨List.replicate (B * K) [startTok],
   List.replicate (B * K) (some 0),
   List.replicate (B * K) (some 0),
   [], [], []⟩

/-- The decoding loop: src_max_len steps from the initial state. -/
def genLoop (decode : Nat → List (List Nat) → List (List Score))
    (B K V L eosIdx startTok : Nat) (pen : ℚ) : GenState :=
  (List.range L).foldl (fun st step => stepFn decode B K V eosIdx pen step st)
    (initState B K startTok)

/-- Slot indices whose saved score is still exactly zero (never completed,
    or completed with score zero). -/
def zeroPositions (ss : List Score) : List Nat :=
  (List.range ss.length).filter (fun i => ss.getD i none = some 0)

/-- The fallback block after the loop: every slot whose saved score is still 0
    is force-finalized from its last sequence and running score. -/
def fallback (st : GenState) : GenState :=
  if some (0 : ℚ) ∈ st.scores_save then
    { st with
      complete_seqs := (zeroPositions st.scores_save).foldl
        (fun d i => dset d i (st.seqs.getD i [])) st.complete_seqs,
      scores_save := (zeroPositions st.scores_save).foldl
        (fun ss i => ss.set i (st.top_k_scores.getD i none)) st.scores_save }
  else st

/-- The length-normalization divisor ((len + beam_size) ^ alpha) / ((beam_size + 1) ^ alpha). -/
def lengthPenalty (K alpha len : Nat) : ℚ :=
  (((len + K : ℕ) : ℚ) ^ alpha) / (((K + 1 : ℕ) : ℚ) ^ alpha)

/-- scores_save / lp: every saved score divided by its length penalty. -/
def normScores (B K alpha : Nat) (st : GenState) : List Score :=
  (List.range (B * K)).map (fun i =>
    sDivQ (st.scores_save.getD i none)
      (lengthPenalty K alpha (dget st.complete_seqs i).length))

/-- First index of a maximal score (torch.max over a dimension returns the
    first maximal index). -/
def argmaxIdx : List Score → Nat
  | [] => 0
  | [_] => 0
  | a :: b :: rest =>
    if sLt a ((b :: rest).getD (argmaxIdx (b :: rest)) none) then
      argmaxIdx (b :: rest) + 1
    else 0

/-- The winning global slot of example j: its beam offset is the argmax of the
    normalized scores of its beam_size slots. -/
def winnerSlot (B K alpha : Nat) (st : GenState) (j : Nat) : Nat :=
  j * K + argmaxIdx (((normScores B K alpha st).drop (j * K)).take K)

/-- The post-loop finalization: fallback completion, length normalization and
    per-example argmax, returning one decoded sequence per example. -/
def finalize (B K alpha : Nat) (st : GenState) : List (List Nat) :=
  (List.range B).map (fun j =>
    dget (fallback st).complete_seqs (winnerSlot B K alpha (fallback st) j))

/-- The beam search decoder TransformerModel.generate: loop then finalization. -/
def generate (decode : Nat → List (List Nat) → List (List Score))
    (B K V L eosIdx startTok alpha : Nat) (pen : ℚ) : List (List Nat) :=
  finalize B K alpha (genLoop decode B K V L eosIdx startTok pen)

/-- Shape well-formedness of a decoding state: all three per-slot vectors have
    one entry per (example, beam) slot. -/
def WF (B K : Nat) (st : GenState) : Prop :=
  st.seqs.length = B * K ∧ st.top_k_scores.length = B * K ∧
    st.scores_save.length = B * K

/-- Every slot not yet complete still has its initial zero saved score. -/
def NCZ (B K : Nat) (st : GenState) : Prop :=
  ∀ i, i < B * K → i ∉ st.complete_ind → st.scores_save.getD i none = some 0

/-- One row of shift_tokens_right: the decoder start token followed by the row
    without its last element, with every sentinel -100 replaced by the pad id
    (the masked_fill runs on the shifted output). -/
def shiftRow (pad decStart : Int) (row : List Int) : List Int :=
  (decStart :: row.dropLast).map (fun t => if t = -100 then pad else t)

/-- shift_tokens_right of model/model.py: shift every row one token to the
    right, insert the decoder start token at position 0, replace -100 by the
    pad id, and fail when the pad token id is undefined. -/
def shift_tokens_right (input_ids : List (List Int)) (pad_token_id : Option Int)
    (decoder_start_token_id : Int) : Except String (List (List Int)) :=
  match pad_token_id with
  | none => .error "self.model.config.pad_token_id has to be defined."
  | some p => .ok (input_ids.map (shiftRow p decoder_start_token_id))

/-- A Python statement reduced to the names it reads and the names it binds. -/
structure PyStmt where
  reads : List String
  binds : List String
deriving DecidableEq

/-- The module-level names of model/model.py (imports and top-level definitions). -/
def modelGlobals : List String :=
  ["math", "defaultdict", "torch", "nn", "Variable", "autocast", "F",
   "PretrainedConfig", "AutoModel", "AutoTokenizer", "return_model_name",
   "model_setting", "TransformerModel", "ClassifierModel",
   "_prepare_bart_decoder_inputs", "shift_tokens_right", "make_padding_mask",
   "invert_mask", "fill_with_neg_inf", "PositionalEmbedding"]

/-- The Python builtins referenced inside generate. -/
def pyBuiltins : List String := ["len", "range", "float", "set", "list"]

/-- The parameters of TransformerModel.generate, its initial local scope. -/
def generateParams : List String :=
  ["self", "encoder_out", "attention_mask", "beam_size", "beam_alpha",
   "repetition_penalty", "device"]

/-- The statements of TransformerModel.generate in source order, each reduced
    to the outer names it reads and the local names it binds (comprehension
    variables are internal and omitted). -/
def generateStmts : List PyStmt :=
  [⟨["input_ids"], ["batch_size"]⟩,
   ⟨["input_ids"], ["src_seq_size"]⟩,
   ⟨["defaultdict", "list"], ["encoder_out_dict"]⟩,
   ⟨["torch", "beam_size", "batch_size", "device"], ["every_batch"]⟩,
   ⟨["encoder_out"], ["hidden_states"]⟩,
   ⟨["attention_mask", "batch_size"], ["src_key_padding_mask"]⟩,
   ⟨["src_key_padding_mask", "beam_size"], ["src_key_padding_mask"]⟩,
   ⟨["src_key_padding_mask", "src_seq_size"], ["src_key_padding_mask"]⟩,
   ⟨["hidden_states", "batch_size", "self"], ["hidden_states"]⟩,
   ⟨["hidden_states", "beam_size"], ["hidden_states"]⟩,
   ⟨["hidden_states", "src_seq_size", "self"], ["hidden_states"]⟩,
   ⟨["torch", "beam_size", "batch_size", "device"], ["scores_save"]⟩,
   ⟨["torch", "beam_size", "batch_size", "device"], ["top_k_scores"]⟩,
   ⟨["defaultdict", "list"], ["complete_seqs"]⟩,
   ⟨["set"], ["complete_ind"]⟩,
   ⟨["torch", "self", "device"], ["seqs"]⟩,
   ⟨["seqs", "beam_size", "batch_size"], ["seqs"]⟩,
   ⟨["range", "self"], ["step"]⟩,
   ⟨["self", "seqs", "hidden_states", "src_key_padding_mask"], ["decoder_outputs"]⟩,
   ⟨["decoder_outputs"], ["decoder_outputs"]⟩,
   ⟨["F", "self", "decoder_out"], ["scores"]⟩,
   ⟨["self", "scores"], ["scores"]⟩,
   ⟨["F", "scores"], ["scores"]⟩,
   ⟨["step", "repetition_penalty"], []⟩,
   ⟨["next_word_inds"], ["next_ix"]⟩,
   ⟨["range", "len", "next_ix"], ["ix_"]⟩,
   ⟨["scores", "ix_", "next_ix"], []⟩,
   ⟨["scores", "ix_", "next_ix", "repetition_penalty"], []⟩,
   ⟨["scores", "ix_", "next_ix", "repetition_penalty"], []⟩,
   ⟨["top_k_scores", "scores"], ["scores"]⟩,
   ⟨["step"], []⟩,
   ⟨["scores", "beam_size"], ["scores"]⟩,
   ⟨["scores", "self", "float"], []⟩,
   ⟨["scores", "beam_size"], ["top_k_scores", "top_k_words"]⟩,
   ⟨["scores", "batch_size", "beam_size"], ["top_k_scores", "top_k_words"]⟩,
   ⟨["top_k_words", "self"], ["prev_word_inds"]⟩,
   ⟨["top_k_words", "self"], ["next_word_inds"]⟩,
   ⟨["top_k_scores", "batch_size", "beam_size"], ["top_k_scores"]⟩,
   ⟨["top_k_words", "batch_size", "beam_size"], ["top_k_words"]⟩,
   ⟨["seqs", "prev_word_inds", "every_batch", "beam_size"], ["seqs"]⟩,
   ⟨["torch", "seqs", "next_word_inds", "beam_size", "batch_size"], ["seqs"]⟩,
   ⟨["self", "next_word_inds"], []⟩,
   ⟨["torch", "next_word_inds", "self"], ["eos_ind"]⟩,
   ⟨["eos_ind"], ["eos_ind"]⟩,
   ⟨["set", "eos_ind", "complete_ind"], ["complete_ind_add"]⟩,
   ⟨["list", "complete_ind_add"], ["complete_ind_add"]⟩,
   ⟨["complete_ind", "eos_ind"], []⟩,
   ⟨["len", "complete_ind_add"], []⟩,
   ⟨["scores_save", "complete_ind_add", "top_k_scores"], []⟩,
   ⟨["complete_ind_add"], ["ix"]⟩,
   ⟨["complete_seqs", "ix", "seqs"], []⟩,
   ⟨["scores_save"], []⟩,
   ⟨["torch", "scores_save"], ["score_save_pos"]⟩,
   ⟨["score_save_pos"], ["ix"]⟩,
   ⟨["complete_seqs", "ix", "seqs"], []⟩,
   ⟨["scores_save", "score_save_pos", "top_k_scores"], []⟩,
   ⟨["torch", "len", "complete_seqs", "range", "batch_size", "beam_size", "device"], ["lp"]⟩,
   ⟨["lp", "beam_size", "beam_alpha"], ["lp"]⟩,
   ⟨["scores_save", "lp"], ["scores_save"]⟩,
   ⟨["scores_save", "batch_size", "beam_size"], ["ind"]⟩,
   ⟨["ind", "every_batch"], ["ind_expand"]⟩,
   ⟨["complete_seqs", "ind_expand"], ["predicted"]⟩,
   ⟨["predicted"], []⟩]

/-- Whether a name resolves in the given local scope, the module globals or the
    builtins. -/
def pyResolvable (scope : List String) (n : String) : Bool :=
  scope.contains n || modelGlobals.contains n || pyBuiltins.contains n

/-- Run a statement list under Python name resolution: the first read of an
    unresolvable name raises a NameError carrying that name. -/
def runStmts (scope : List String) : List PyStmt → Except String (List String)
  | [] => .ok scope
  | s :: rest =>
    match s.reads.find? (fun n => !(pyResolvable scope n)) with
    | some n => .error n
    | none => runStmts (s.binds ++ scope) rest

/-- The mean of a list of rationals (torch .mean over all elements). -/
def qMean (l : List ℚ) : ℚ := l.sum / (l.length : ℚ)

/-- First index of a maximal rational (torch argmax over a dimension). -/
def qArgmax : List ℚ → Nat
  | [] => 0
  | [_] => 0
  | a :: b :: rest =>
    if a < (b :: rest).getD (qArgmax (b :: rest)) 0 then qArgmax (b :: rest) + 1
    else 0

/-- The opaque external collaborators of the augmenter training phase:
    the augmenter forward pass (latent vector and decoder logits), the
    MaximumMeanDiscrepancy regularizer of model/loss.py, the reconstruction
    cross-entropy with ignore_index = pad, the no-grad classifier confidence
    on detokenized/re-tokenized generated text, and the real exponential. -/
structure AugDeps where
  augForward : List Nat → List ℚ × List (List ℚ)
  mmdFn : List ℚ → ℚ
  ceFn : List (List ℚ) → List Nat → ℚ
  clsConfidence : List Nat → List (List ℚ)
  pexp : ℚ → ℚ

/-- The four loss values computed for one augmenter micro-batch. -/
structure AugLossParts where
  mmd : ℚ
  ce : ℚ
  adv : ℚ
  total : ℚ
deriving DecidableEq

/-- The loss computation of one augmenter micro-batch of training (lines
    258-285 of task/training.py): the forward pass runs on the augmenter
    batch, the MMD regularizer is scaled by 10, the cross-entropy target is
    the variable src_sequence (the last classifier-phase micro-batch), the
    adversarial loss is the mean of pexp(uniform - confidence), and the
    back-propagated total is the sum of the three terms. -/
def augMicroStep (d : AugDeps) (num_labels : Nat) (src_sequence : List Nat)
    (aug_src_sequence : List Nat) : AugLossParts :=
  let fw := d.augForward aug_src_sequence
  let mmd_loss := d.mmdFn fw.1 * 10
  let ce_loss := d.ceFn fw.2 src_sequence
  let decoder_out_token := fw.2.map qArgmax
  let confidence := d.clsConfidence decoder_out_token
  let ood_trg_list :=
    List.replicate confidence.length
      (List.replicate num_labels ((1 : ℚ) / (num_labels : ℚ)))
  let new_loss := qMean
    ((List.zipWith (fun orow crow => List.zipWith (fun o c => d.pexp (o - c)) orow crow)
        ood_trg_list confidence).flatten)
  ⟨mmd_loss, ce_loss, new_loss, mmd_loss + ce_loss + new_loss⟩

/-- The state of the inner training loop: the two live iterators, the
    finish_epoch flag, the variable src_sequence left by the classifier phase,
    and the log of back-propagated augmenter losses. -/
structure LoopState where
  clsIter : List (List Nat)
  augIter : List (List Nat)
  finishEpoch : Bool
  srcSequence : Option (List Nat)
  augLossLog : List AugLossParts
deriving DecidableEq

/-- One draw from a data source: take from the live iterator; on exhaustion
    re-create the iterator from the underlying data (reporting that a reset
    happened) and draw again; an empty underlying source is an uncaught
    StopIteration. -/
def drawNext (data it : List (List Nat)) :
    Except String (List Nat × List (List Nat) × Bool) :=
  match it with
  | b :: rest => .ok (b, rest, false)
  | [] =>
    match data with
    | b :: rest => .ok (b, rest, true)
    | [] => .error "StopIteration"

/-- The classifier accumulation phase: num_grad_accumulate draws from the
    classifier source, re-creating its iterator on exhaustion without touching
    the finish_epoch flag; each draw binds src_sequence. -/
def clsPhase (clsData : List (List Nat)) : Nat → LoopState → Except String LoopState
  | 0, st => .ok st
  | n + 1, st =>
    match drawNext clsData st.clsIter with
    | .error e => .error e
    | .ok (b, it, _) =>
      clsPhase clsData n { st with clsIter := it, srcSequence := some b }

/-- The augmenter accumulation phase: num_grad_accumulate draws from the
    augmenter source; exhaustion re-creates the iterator AND sets the
    finish_epoch flag; each micro-batch computes and back-propagates the
    summed augmenter loss of augMicroStep against the stale src_sequence. -/
def augPhase (d : AugDeps) (augData : List (List Nat)) (num_labels : Nat) :
    Nat → LoopState → Except String LoopState
  | 0, st => .ok st
  | n + 1, st =>
    match drawNext augData st.augIter with
    | .error e => .error e
    | .ok (b, it, reset) =>
      match st.srcSequence with
      | none => .error "src_sequence"
      | some src =>
        augPhase d augData num_labels n
          { st with augIter := it,
                    finishEpoch := st.finishEpoch || reset,
                    augLossLog := st.augLossLog ++ [augMicroStep d num_labels src b] }

/-- One round of the inner loop: classifier phase then augmenter phase. -/
def trainRound (d : AugDeps) (clsData augData : List (List Nat)) (N num_labels : Nat)
    (st : LoopState) : Except String LoopState :=
  match clsPhase clsData N st with
  | .error e => .error e
  | .ok st1 => augPhase d augData num_labels N st1

/-- The epoch inner loop (while True): rounds until finish_epoch is set at the
    end of a round; the fuel bound only models the unbounded while. -/
def innerLoop (d : AugDeps) (clsData augData : List (List Nat)) (N num_labels : Nat) :
    Nat → LoopState → Except String LoopState
  | 0, _ => .error "fuel"
  | fuel + 1, st =>
    match trainRound d clsData augData N num_labels st with
    | .error e => .error e
    | .ok st2 =>
      if st2.finishEpoch then .ok st2
      else innerLoop d clsData augData N num_labels fuel st2

/-- Concrete collaborators used to evaluate the orchestrator on closed inputs:
    an empty latent, one decoder logit row, a zero regularizer, a
    cross-entropy returning the sum of its target tokens (so that different
    targets give different losses), a uniform two-class confidence, and an
    affine stand-in for the exponential. -/
def d0 : AugDeps where
  augForward := fun _ => ([], [[0]])
  mmdFn := fun _ => 0
  ceFn := fun _ t => ((t.sum : ℕ) : ℚ)
  clsConfidence := fun _ => [[1/2, 1/2]]
  pexp := fun x => x + 1

/-- The initial inner-loop state of an epoch: fresh flag, no classifier batch
    drawn yet, empty loss log. -/
def st0 : LoopState := ⟨[], [], false, none, []⟩

/-- The keys of the BatchEncoding returned by the classifier tokenizer.
    Modelled from the spec: the external persisted-dataset interface of the
    classifier corpus is keyed by input_ids, token_type_ids, attention_mask
    (the tokenizer output consumed at lines 391-396 of task/training.py is not
    itself repository code). -/
def clsEncodeKeys : List String := ["input_ids", "token_type_ids", "attention_mask"]

/-- The tokenizer output of the augmentation pass: each key maps to an array
    with m rows (one per generated example). -/
def clsTokenizerEncode (m : Nat) : List (String × Nat) := clsEncodeKeys.map (fun k => (k, m))

/-- Row counts of the four classifier-corpus arrays grown by augmentation. -/
structure ClsCorpus where
  nSrc : Nat
  nAtt : Nat
  nSeg : Nat
  nTrg : Nat
deriving DecidableEq

/-- Subscript access on the tokenizer output; a missing key is a KeyError
    carrying the key. -/
def encGet (enc : List (String × Nat)) (k : String) : Except String Nat :=
  match enc.find? (fun p => p.1 = k) with
  | some p => .ok p.2
  | none => .error k

/-- The corpus-append block of the text-augmentation pass (lines 393-396 of
    task/training.py), with the key strings exactly as written in the source. -/
def textAugBatchStep (enc : List (String × Nat)) (labelRows : Nat) (c : ClsCorpus) :
    Except String ClsCorpus := do
  let m1 ← encGet enc "input_ids"
  let c1 : ClsCorpus := { c with nSrc := c.nSrc + m1 }
  let m2 ← encGet enc "attetntion_mask"
  let c2 : ClsCorpus := { c1 with nAtt := c1.nAtt + m2 }
  let m3 ← encGet enc "token_type_ids"
  let c3 : ClsCorpus := { c2 with nSeg := c2.nSeg + m3 }
  pure { c3 with nTrg := c3.nTrg + labelRows }

/-- The best-validation-loss tracking state across epochs; bestEpoch is none
    until some epoch improved (in the source, the name best_epoch is simply
    unbound until then). -/
structure CkptState where
  bestValLoss : ℚ
  bestEpoch : Option Nat
deriving DecidableEq

/-- The checkpoint archive written at the end of an improving epoch. -/
structure Checkpoint where
  epoch : Nat
  cls_model : Nat
  aug_model : Nat
  cls_optimizer : Nat
  aug_optimizer : Nat
  cls_scheduler : Nat
  aug_scheduler : Nat
  scaler : Nat
deriving DecidableEq

/-- The current values of the seven stateful components, snapshotted into a
    checkpoint (opaque state ids). -/
structure Snapshots where
  cls_model : Nat
  aug_model : Nat
  cls_optimizer : Nat
  aug_optimizer : Nat
  cls_scheduler : Nat
  aug_scheduler : Nat
  scaler : Nat
deriving DecidableEq

/-- The end-of-epoch checkpoint block (lines 405-423 of task/training.py):
    on strict improvement of the validation MMD loss, save the full
    checkpoint and update the best values; otherwise log that the best epoch
    stands, which reads best_epoch and raises a NameError when no epoch has
    improved yet. -/
def epochEndCheckpoint (snap : Snapshots) (epoch : Nat) (val_mmd_loss : ℚ)
    (st : CkptState) :
    Except String (CkptState × Option Checkpoint × Option String) :=
  if val_mmd_loss < st.bestValLoss then
    .ok (⟨val_mmd_loss, some epoch⟩,
         some ⟨epoch, snap.cls_model, snap.aug_model, snap.cls_optimizer,
               snap.aug_optimizer, snap.cls_scheduler, snap.aug_scheduler,
               snap.scaler⟩,
         none)
  else
    match st.bestEpoch with
    | some be =>
      .ok (st, none, some ("Still " ++ toString be ++ " epoch Loss is better..."))
    | none => .error "best_epoch"

/-- Whether the epoch-end block wrote a checkpoint. -/
def savesCheckpoint (r : Except String (CkptState × Option Checkpoint × Option String)) :
    Bool :=
  match r with
  | .ok (_, some _, _) => true
  | _ => false

/-- A fixed snapshot used for closed evaluations. -/
def snap0 : Snapshots := ⟨0, 0, 0, 0, 0, 0, 0⟩

/-- A concrete scoring function for closed evaluations of the beam decoder:
    one slot, two vocabulary entries with log-probabilities 0 and -1. -/
def decode0 : Nat → List (List Nat) → List (List Score) :=
  fun _ _ => [[some 0, some (-1)]]

/-- A concrete loop-exit state of the beam decoder with one example, two beam
    slots, both completed with equal raw score -4 but sequences of different
    lengths 3 and 5. -/
def exSt : GenState :=
  ⟨[[9], [9]], [some (-4), some (-4)], [some (-4), some (-4)],
   [(0, [9, 4, 2]), (1, [9, 4, 4, 4, 2])], [0, 1], []⟩

/-- The loop state after the classifier phase of the closed orchestrator run:
    the classifier source batch [3] was drawn and bound to src_sequence. -/
def stA : LoopState := ⟨[], [], false, some [3], []⟩

/-- The loop state after the augmenter phase of the closed orchestrator run:
    the augmenter iterator was reset (finish_epoch set), the micro-batch [4]
    was processed, and the logged loss parts are (0, 3, 1, 4) - in particular
    the cross-entropy part 3 comes from the classifier-phase batch [3]. -/
def stB : LoopState := ⟨[], [[5]], true, some [3], [⟨0, 3, 1, 4⟩]⟩

instance {ε α : Type} [DecidableEq ε] [DecidableEq α] : DecidableEq (Except ε α) :=
  fun a b => by
    cases a <;> cases b
    case error.error e1 e2 => exact decidable_of_iff (e1 = e2) (by simp)
    case error.ok => exact .isFalse (by simp)
    case ok.error => exact .isFalse (by simp)
    case ok.ok a1 a2 => exact decidable_of_iff (a1 = a2) (by simp)

lemma foldl_preserve {γ β : Type} {P : γ → Prop} (f : γ → β → γ) (l : List β)
    (init : γ) (h0 : P init) (hstep : ∀ acc x, P acc → P (f acc x)) :
    P (l.foldl f init) := by
  induction l generalizing init with
  | nil => exact h0
  | cons a l ih => exact ih (f init a) (hstep init a h0)

lemma getD_set_ne {α : Type} {l : List α} {i j : Nat} {a d : α} (h : i ≠ j) :
    (l.set j a).getD i d = l.getD i d := by
  induction l generalizing i j with
  | nil => simp
  | cons b l ih =>
    cases j with
    | zero =>
      cases i with
      | zero => exact absurd rfl h
      | succ i => simp [List.getD]
    | succ j =>
      cases i with
      | zero => simp [List.getD]
      | succ i =>
        simp only [List.set, List.getD_cons_succ]
        exact ih (fun hij => h (by omega))

lemma getD_set_self {α : Type} {l : List α} {j : Nat} {a d : α} (h : j < l.length) :
    (l.set j a).getD j d = a := by
  induction l generalizing j with
  | nil => simp at h
  | cons b l ih =>
    cases j with
    | zero => simp [List.getD]
    | succ j =>
      simp only [List.set, List.getD_cons_succ]
      exact ih (by simpa using h)

lemma set_of_length_le {α : Type} {l : List α} {j : Nat} {a : α} (h : l.length ≤ j) :
    l.set j a = l := by
  induction l generalizing j with
  | nil => simp
  | cons b l ih =>
    cases j with
    | zero => simp at h
    | succ j => simp only [List.set]; rw [ih (by simpa using h)]

lemma length_foldl_set {α : Type} (l : List Nat) (g : Nat → α) (ss : List α) :
    (l.foldl (fun acc j => acc.set j (g j)) ss).length = ss.length := by
  induction l generalizing ss with
  | nil => rfl
  | cons a l ih => simpa [List.length_set] using ih (ss.set a (g a))

lemma getD_foldl_set_notin {α : Type} {l : List Nat} {i : Nat} (g : Nat → α)
    (ss : List α) (d : α) (h : i ∉ l) :
    (l.foldl (fun acc j => acc.set j (g j)) ss).getD i d = ss.getD i d := by
  induction l generalizing ss with
  | nil => rfl
  | cons a l ih =>
    simp only [List.foldl_cons]
    rw [ih (ss.set a (g a)) (fun hm => h (List.mem_cons_of_mem a hm))]
    exact getD_set_ne (fun hia => h (hia ▸ List.mem_cons_self a l))

lemma getD_foldl_set_mem {α : Type} {l : List Nat} {i : Nat} (g : Nat → α)
    (ss : List α) (d : α) (hnd : l.Nodup) (hm : i ∈ l) (hlen : i < ss.length) :
    (l.foldl (fun acc j => acc.set j (g j)) ss).getD i d = g i := by
  induction l generalizing ss with
  | nil => simp at hm
  | cons a l ih =>
    simp only [List.foldl_cons]
    rcases List.mem_cons.mp hm with h1 | h1
    · subst h1
      rw [getD_foldl_set_notin g _ d (List.Nodup.not_mem hnd)]
      exact getD_set_self hlen
    · exact ih (ss.set a (g a)) (List.Nodup.of_cons hnd) h1 (by simpa [List.length_set])

lemma dget_dset_self (d : List (Nat × List Nat)) (i : Nat) (v : List Nat) :
    dget (dset d i v) i = v := by
  simp [dget, dset, List.find?]

lemma dget_dset_ne (d : List (Nat × List Nat)) {i j : Nat} (v : List Nat)
    (h : j ≠ i) : dget (dset d j v) i = dget d i := by
  simp only [dget, dset, List.find?]
  have : (decide (j = i)) = false := by simpa using h
  simp [this]

lemma dget_foldl_dset_notin {l : List Nat} {i : Nat} (g : Nat → List Nat)
    (d : List (Nat × List Nat)) (h : i ∉ l) :
    dget (l.foldl (fun acc j => dset acc j (g j)) d) i = dget d i := by
  induction l generalizing d with
  | nil => rfl
  | cons a l ih =>
    simp only [List.foldl_cons]
    rw [ih (dset d a (g a)) (fun hm => h (List.mem_cons_of_mem a hm))]
    exact dget_dset_ne d (g a) (fun hia => h (hia ▸ List.mem_cons_self a l))

lemma dget_foldl_dset_mem {l : List Nat} {i : Nat} (g : Nat → List Nat)
    (d : List (Nat × List Nat)) (hnd : l.Nodup) (hm : i ∈ l) :
    dget (l.foldl (fun acc j => dset acc j (g j)) d) i = g i := by
  induction l generalizing d with
  | nil => simp at hm
  | cons a l ih =>
    simp only [List.foldl_cons]
    rcases List.mem_cons.mp hm with h1 | h1
    · subst h1
      rw [dget_foldl_dset_notin g _ (List.Nodup.not_mem hnd)]
      exact dget_dset_self d i (g i)
    · exact ih (dset d a (g a)) (List.Nodup.of_cons hnd) h1

lemma getD_mem {α : Type} {l : List α} {i : Nat} {d : α} (h : i < l.length) :
    l.getD i d ∈ l := by
  induction l generalizing i with
  | nil => simp at h
  | cons a l ih =>
    cases i with
    | zero => simp [List.getD]
    | succ i =>
      simp only [List.getD_cons_succ]
      exact List.mem_cons_of_mem a (ih (by simpa using h))

lemma getD_replicate {α : Type} {n i : Nat} {a d : α} (h : i < n) :
    (List.replicate n a).getD i d = a := by
  induction n generalizing i with
  | zero => omega
  | succ n ih =>
    cases i with
    | zero => simp [List.replicate, List.getD]
    | succ i => simpa [List.replicate, List.getD_cons_succ] using ih (by omega)

lemma mem_zipWith {α β γ : Type} {f : α → β → γ} {r : γ} :
    ∀ {xs : List α} {ys : List β}, r ∈ List.zipWith f xs ys →
      ∃ x, x ∈ xs ∧ ∃ y, y ∈ ys ∧ r = f x y := by
  intro xs
  induction xs with
  | nil => intro ys h; simp at h
  | cons x xs ih =>
    intro ys h
    cases ys with
    | nil => simp at h
    | cons y ys =>
      rcases List.mem_cons.mp h with h1 | h1
      · exact ⟨x, List.mem_cons_self x xs, y, List.mem_cons_self y ys, h1⟩
      · rcases ih h1 with ⟨x2, hx2, y2, hy2, hr⟩
        exact ⟨x2, List.mem_cons_of_mem x hx2, y2, List.mem_cons_of_mem y hy2, hr⟩

lemma flatten_length_uniform {α : Type} {L : List (List α)} {k : Nat}
    (h : ∀ r ∈ L, r.length = k) : L.flatten.length = L.length * k := by
  induction L with
  | nil => simp
  | cons r L ih =>
    simp only [List.flatten_cons, List.length_append, List.length_cons]
    rw [h r (List.mem_cons_self r L), ih (fun s hs => h s (List.mem_cons_of_mem r hs))]
    ring

lemma length_insertDesc (p : Nat × Score) (l : List (Nat × Score)) :
    (insertDesc p l).length = l.length + 1 := by
  induction l with
  | nil => rfl
  | cons q rest ih =>
    simp only [insertDesc]
    by_cases h : scoreBefore p q
    · simp [h]
    · simp [h, ih]

lemma length_sortDesc (l : List (Nat × Score)) : (sortDesc l).length = l.length := by
  induction l with
  | nil => rfl
  | cons p rest ih =>
    simp only [sortDesc, List.foldr_cons] at *
    rw [length_insertDesc, ih]
    simp

lemma length_topk (k : Nat) (row : List Score) :
    (topk k row).length = min k row.length := by
  simp [topk, List.length_take, length_sortDesc, List.enum_length]

lemma everyNth_shape (k : Nat) (hk : 1 ≤ k) :
    ∀ (l : List (List Score)) (c : Nat),
      (everyNth k c l).length = (l.length - c + k - 1) / k ∧
      ∀ r ∈ everyNth k c l, r ∈ l := by
  intro l
  induction l with
  | nil =>
    intro c
    refine ⟨?_, by simp [everyNth]⟩
    simp only [everyNth, List.length_nil]
    rw [show 0 - c + k - 1 = k - 1 by omega, Nat.div_eq_of_lt (by omega)]
  | cons a rest ih =>
    intro c
    cases c with
    | zero =>
      constructor
      · simp only [everyNth, List.length_cons]
        rw [(ih (k - 1)).1]
        by_cases hm : k ≤ rest.length + 1
        · have h1 : rest.length - (k - 1) + k - 1 = rest.length := by omega
          rw [h1]
          have h2 : rest.length + 1 - 0 + k - 1 = rest.length + k := by omega
          rw [h2, Nat.add_div_right _ (by omega)]
        · have h1 : rest.length - (k - 1) = 0 := by omega
          rw [h1]
          have h2 : 0 + k - 1 = k - 1 := by omega
          rw [h2, Nat.div_eq_of_lt (by omega)]
          have h3 : rest.length + 1 - 0 + k - 1 = rest.length + k := by omega
          rw [h3, Nat.add_div_right _ (by omega), Nat.div_eq_of_lt (by omega)]
      · intro r hr
        simp only [everyNth] at hr
        rcases List.mem_cons.mp hr with h1 | h1
        · exact h1 ▸ List.mem_cons_self a rest
        · exact List.mem_cons_of_mem a ((ih (k - 1)).2 r h1)
    | succ c =>
      constructor
      · simp only [everyNth, List.length_cons]
        rw [(ih c).1]
        congr 1
        omega
      · intro r hr
        simp only [everyNth] at hr
        exact List.mem_cons_of_mem a ((ih c).2 r hr)

lemma sLe_of_sLt_eq_false {a b : Score} (h : sLt a b = false) : sLe b a = true := by
  simp [sLe, h]

lemma sLe_of_sLt {a b : Score} (h : sLt a b = true) : sLe a b = true := by
  cases a <;> cases b <;> simp_all [sLt, sLe]
  exact le_of_lt h

lemma sLe_refl (a : Score) : sLe a a = true := by
  cases a <;> simp [sLe, sLt]

lemma sLe_trans {a b c : Score} (h1 : sLe a b = true) (h2 : sLe b c = true) :
    sLe a c = true := by
  cases a <;> cases b <;> cases c <;> simp_all [sLe, sLt]
  rename_i x y z
  exact le_trans h1 h2

lemma argmaxIdx_lt_length (l : List Score) (h : l ≠ []) : argmaxIdx l < l.length := by
  induction l with
  | nil => exact absurd rfl h
  | cons a rest ih =>
    cases rest with
    | nil => simp [argmaxIdx]
    | cons b rest2 =>
      have hlen := ih (by simp)
      simp only [List.length_cons] at hlen ⊢
      simp only [argmaxIdx]
      split
      · omega
      · omega

lemma argmaxIdx_max (l : List Score) (i : Nat) (hi : i < l.length) :
    sLe (l.getD i none) (l.getD (argmaxIdx l) none) = true := by
  induction l generalizing i with
  | nil => simp at hi
  | cons a rest ih =>
    cases rest with
    | nil =>
      cases i with
      | zero => simp [argmaxIdx, sLe_refl]
      | succ i =>
        simp only [List.length_cons, List.length_nil] at hi
        omega
    | cons b rest2 =>
      simp only [argmaxIdx]
      split
      · next hlt =>
        cases i with
        | zero =>
          simp only [List.getD_cons_succ, List.getD_cons_zero]
          exact sLe_of_sLt hlt
        | succ i =>
          simp only [List.getD_cons_succ]
          exact ih i (by simpa using hi)
      · next hlt =>
        cases i with
        | zero => simp [sLe_refl]
        | succ i =>
          simp only [List.getD_cons_succ, List.getD_cons_zero]
          have h1 : sLe ((b :: rest2).getD i none)
              ((b :: rest2).getD (argmaxIdx (b :: rest2)) none) = true :=
            ih i (by simpa using hi)
          have h2 : sLe ((b :: rest2).getD (argmaxIdx (b :: rest2)) none) a = true :=
            sLe_of_sLt_eq_false (by simpa using hlt)
          exact sLe_trans h1 h2

lemma applyRepPenalty_shape {V : Nat} (step : Nat) (pen : ℚ) (next_ix : List Nat)
    (sc : List (List Score)) (hrows : ∀ r ∈ sc, r.length = V) :
    (applyRepPenalty step pen next_ix sc).length = sc.length ∧
      ∀ r ∈ applyRepPenalty step pen next_ix sc, r.length = V := by
  unfold applyRepPenalty
  split
  · refine @foldl_preserve _ _ (fun acc => acc.length = sc.length ∧ ∀ r ∈ acc, r.length = V)
      (penalizeAt next_ix pen) (List.range next_ix.length) sc ⟨rfl, hrows⟩ ?_
    intro acc ix ⟨hlen, hrs⟩
    unfold penalizeAt
    constructor
    · simp [List.length_set, hlen]
    · intro r hr
      rcases List.mem_or_eq_of_mem_set hr with h1 | h1
      · exact hrs r h1
      · subst h1
        by_cases hix : ix < acc.length
        · simp only [rowPenalize, List.length_set]
          exact hrs _ (getD_mem hix)
        · rw [set_of_length_le (by omega)] at hr
          exact hrs _ hr
  · exact ⟨rfl, hrows⟩

lemma stepScores_shape {B K V : Nat}
    (decode : Nat → List (List Nat) → List (List Score)) (pen : ℚ) (step : Nat)
    (st : GenState)
    (hdec : (decode step st.seqs).length = B * K ∧
      ∀ r ∈ decode step st.seqs, r.length = V)
    (htk : st.top_k_scores.length = B * K) :
    (stepScores decode pen step st).length = B * K ∧
      ∀ r ∈ stepScores decode pen step st, r.length = V := by
  have hpen := applyRepPenalty_shape (V := V) step pen st.next_word_inds
    (decode step st.seqs) hdec.2
  constructor
  · simp only [stepScores, addCum, List.length_zipWith]
    rw [hpen.1, hdec.1, htk]
    simp
  · intro r hr
    simp only [stepScores, addCum] at hr
    rcases mem_zipWith hr with ⟨t, _, row, hrow, hreq⟩
    subst hreq
    simp only [List.length_map]
    exact hpen.2 row hrow

lemma stepTKRows_shape {B K V : Nat} (eosIdx : Nat) (step : Nat) (sc : List (List Score))
    (hK : 1 ≤ K) (hKV : K ≤ V)
    (hlen : sc.length = B * K) (hrows : ∀ r ∈ sc, r.length = V) :
    (stepTKRows B K eosIdx step sc).length = B ∧
      ∀ r ∈ stepTKRows B K eosIdx step sc, r.length = K := by
  unfold stepTKRows
  split
  · -- step 0 branch
    have hev := everyNth_shape K hK sc 0
    have hevlen : (everyNth K 0 sc).length = B := by
      rw [hev.1, hlen]
      have h1 : B * K - 0 + K - 1 = K * B + (K - 1) := by
        rw [Nat.mul_comm]
        omega
      rw [h1, Nat.mul_add_div (by omega), Nat.div_eq_of_lt (by omega)]
      omega
    constructor
    · simp [stepZeroSelect, hevlen]
    · intro r hr
      simp only [stepZeroSelect, List.mem_map] at hr
      rcases hr with ⟨row, hrow, hreq⟩
      rcases hrow with ⟨row0, hrow0, hreq0⟩
      subst hreq
      subst hreq0
      rw [length_topk]
      have : row0.length = V := hrows row0 (hev.2 row0 hrow0)
      simp only [List.length_set, this]
      omega
  · -- later step branch
    constructor
    · simp [stepPosSelect]
    · intro r hr
      simp only [stepPosSelect, List.mem_map] at hr
      rcases hr with ⟨row, hrow, hreq⟩
      rcases hrow with ⟨j, hj, hreq0⟩
      subst hreq
      subst hreq0
      rw [length_topk]
      have hjB : j < B := List.mem_range.mp hj
      have hflat : ((sc.drop (j * K)).take K).flatten.length = K * V := by
        have htlen : ((sc.drop (j * K)).take K).length = K := by
          simp only [List.length_take, List.length_drop, hlen]
          have h1 : j * K + K ≤ B * K := by
            calc j * K + K = (j + 1) * K := by ring
            _ ≤ B * K := Nat.mul_le_mul_right K hjB
          omega
        rw [flatten_length_uniform (k := V), htlen]
        intro r2 hr2
        exact hrows r2 (List.mem_of_mem_drop (List.mem_of_mem_take hr2))
      rw [hflat]
      have hV : 1 ≤ V := le_trans hK hKV
      have : K ≤ K * V := Nat.le_mul_of_pos_right K (by omega)
      omega

lemma tkValues_length {B K : Nat} (tkRows : List (List (Nat × Score)))
    (hlen : tkRows.length = B) (hrows : ∀ r ∈ tkRows, r.length = K) :
    (tkValues tkRows).length = B * K := by
  unfold tkValues
  rw [flatten_length_uniform (k := K), List.length_map, hlen]
  intro r hr
  rcases List.mem_map.mp hr with ⟨row, hrow, hreq⟩
  subst hreq
  simp [hrows row hrow]

lemma tkWords_length {B K : Nat} (tkRows : List (List (Nat × Score)))
    (hlen : tkRows.length = B) (hrows : ∀ r ∈ tkRows, r.length = K) :
    (tkWords tkRows).length = B * K := by
  unfold tkWords
  rw [flatten_length_uniform (k := K), List.length_map, hlen]
  intro r hr
  rcases List.mem_map.mp hr with ⟨row, hrow, hreq⟩
  subst hreq
  simp [hrows row hrow]

lemma saveComplete_length (eosIdx : Nat) (next_inds : List Nat) (top_k : List Score)
    (seqs : List (List Nat)) (scores_save : List Score)
    (complete_seqs : List (Nat × List Nat)) (complete_ind : List Nat) :
    (saveComplete eosIdx next_inds top_k seqs scores_save complete_seqs
      complete_ind).1.length = scores_save.length := by
  unfold saveComplete
  split
  · split
    · exact length_foldl_set (addInd eosIdx next_inds complete_ind)
        (fun i => top_k.getD i none) scores_save
    · rfl
  · rfl

lemma saveComplete_untouched (eosIdx : Nat) (next_inds : List Nat)
    (top_k : List Score) (seqs : List (List Nat)) (scores_save : List Score)
    (complete_seqs : List (Nat × List Nat)) (complete_ind : List Nat) (i : Nat)
    (h : i ∉ (saveComplete eosIdx next_inds top_k seqs scores_save complete_seqs
      complete_ind).2.2) :
    (saveComplete eosIdx next_inds top_k seqs scores_save complete_seqs
      complete_ind).1.getD i none = scores_save.getD i none ∧ i ∉ complete_ind := by
  by_cases h1 : eosIdx ∈ next_inds
  · by_cases h2 : addInd eosIdx next_inds complete_ind ≠ []
    · simp only [saveComplete, if_pos h1, if_pos h2] at h ⊢
      simp only [List.mem_append, not_or] at h
      exact ⟨getD_foldl_set_notin _ _ _ h.2, h.1⟩
    · simp only [saveComplete, if_pos h1, if_neg h2] at h ⊢
      simp only [List.mem_append, not_or] at h
      exact ⟨trivial, h.1⟩
  · simp only [saveComplete, if_neg h1] at h ⊢
    exact ⟨trivial, h⟩

lemma stepFn_wf {B K V eosIdx : Nat}
    (decode : Nat → List (List Nat) → List (List Score)) (pen : ℚ) (step : Nat)
    (st : GenState) (hK : 1 ≤ K) (hKV : K ≤ V)
    (hdec : ∀ n ss, (decode n ss).length = B * K ∧ ∀ r ∈ decode n ss, r.length = V)
    (hwf : WF B K st) : WF B K (stepFn decode B K V eosIdx pen step st) := by
  obtain ⟨hs, ht, hss⟩ := hwf
  have hsc := stepScores_shape decode pen step st (hdec step st.seqs) ht
  have htk := stepTKRows_shape eosIdx step
    (stepScores decode pen step st) hK hKV hsc.1 hsc.2
  have hvals : (stepTopK decode B K eosIdx pen step st).length = B * K :=
    tkValues_length _ htk.1 htk.2
  have hwords : (stepWords decode B K eosIdx pen step st).length = B * K :=
    tkWords_length _ htk.1 htk.2
  refine ⟨?_, hvals, ?_⟩
  · simp only [stepFn, stepSeqs, List.length_zipWith, List.length_map,
      List.length_range, stepNext, hwords]
    simp
  · simp only [stepFn]
    rw [saveComplete_length, hss]

lemma stepFn_ncz {B K V eosIdx : Nat}
    (decode : Nat → List (List Nat) → List (List Score)) (pen : ℚ) (step : Nat)
    (st : GenState) (hncz : NCZ B K st) :
    NCZ B K (stepFn decode B K V eosIdx pen step st) := by
  intro i hi hmem
  have hu := saveComplete_untouched eosIdx
    (stepNext decode B K V eosIdx pen step st)
    (stepTopK decode B K eosIdx pen step st)
    (stepSeqs decode B K V eosIdx pen step st)
    st.scores_save st.complete_seqs st.complete_ind i hmem
  calc (stepFn decode B K V eosIdx pen step st).scores_save.getD i none
      = st.scores_save.getD i none := hu.1
    _ = some 0 := hncz i hi hu.2

lemma initState_wf (B K startTok : Nat) : WF B K (initState B K startTok) :=
  ⟨by simp [initState], by simp [initState], by simp [initState]⟩

lemma initState_ncz (B K startTok : Nat) : NCZ B K (initState B K startTok) := by
  intro i hi _
  exact getD_replicate hi

lemma genLoop_inv (decode : Nat → List (List Nat) → List (List Score))
    (B K V L eosIdx startTok : Nat) (pen : ℚ) (hK : 1 ≤ K) (hKV : K ≤ V)
    (hdec : ∀ n ss, (decode n ss).length = B * K ∧ ∀ r ∈ decode n ss, r.length = V) :
    WF B K (genLoop decode B K V L eosIdx startTok pen) ∧
      NCZ B K (genLoop decode B K V L eosIdx startTok pen) := by
  unfold genLoop
  refine @foldl_preserve _ _ (fun st => WF B K st ∧ NCZ B K st)
    (fun st step => stepFn decode B K V eosIdx pen step st) (List.range L)
    (initState B K startTok) ⟨initState_wf B K startTok, initState_ncz B K startTok⟩ ?_
  intro acc x hacc
  exact ⟨stepFn_wf decode pen x acc hK hKV hdec hacc.1,
         stepFn_ncz decode pen x acc hacc.2⟩

lemma zeroPositions_nodup (ss : List Score) : (zeroPositions ss).Nodup :=
  (List.nodup_range _).filter _

lemma mem_zeroPositions {ss : List Score} {i : Nat} (hi : i < ss.length)
    (h : ss.getD i none = some 0) : i ∈ zeroPositions ss := by
  have h2 : ss[i] = some 0 := by
    simpa [List.getD_eq_getElem?_getD, List.getElem?_eq_getElem hi] using h
  simp [zeroPositions, List.mem_filter, List.mem_range, hi, h, h2]

lemma zero_mem_of_getD {ss : List Score} {i : Nat} (hi : i < ss.length)
    (h : ss.getD i none = some 0) : some (0 : ℚ) ∈ ss := h ▸ getD_mem hi

lemma fallback_force {st : GenState} {i : Nat} (hi : i < st.scores_save.length)
    (h0 : st.scores_save.getD i none = some 0) :
    dget (fallback st).complete_seqs i = st.seqs.getD i [] := by
  unfold fallback
  rw [if_pos (zero_mem_of_getD hi h0)]
  exact dget_foldl_dset_mem _ _ (zeroPositions_nodup _) (mem_zeroPositions hi h0)

lemma getD_drop_take {l : List Score} {a b m : Nat} (hm : m < b) :
    ((l.drop a).take b).getD m none = l.getD (a + m) none := by
  simp [List.getD_eq_getElem?_getD, List.getElem?_take, hm, List.getElem?_drop]

lemma slice_length {B K j : Nat} (ns : List Score) (hlen : ns.length = B * K)
    (hj : j < B) : ((ns.drop (j * K)).take K).length = K := by
  simp only [List.length_take, List.length_drop, hlen]
  have h1 : j * K + K ≤ B * K := by
    calc j * K + K = (j + 1) * K := by ring
    _ ≤ B * K := Nat.mul_le_mul_right K hj
  omega

lemma normScores_length (B K alpha : Nat) (st : GenState) :
    (normScores B K alpha st).length = B * K := by
  simp [normScores]

lemma getD_range_map {α : Type} (n i : Nat) (f : Nat → α) (d : α) (h : i < n) :
    ((List.range n).map f).getD i d = f i := by
  simp [List.getD_eq_getElem?_getD, List.getElem?_map, List.getElem?_range h]

lemma clsPhase_ok (b0 : List Nat) (rest0 : List (List Nat)) :
    ∀ (N : Nat) (st : LoopState), ∃ st1, clsPhase (b0 :: rest0) N st = .ok st1 ∧
      st1.finishEpoch = st.finishEpoch ∧ st1.augIter = st.augIter ∧
      st1.augLossLog = st.augLossLog := by
  intro N
  induction N with
  | zero => exact fun st => ⟨st, rfl, rfl, rfl, rfl⟩
  | succ n ih =>
    intro st
    cases hit : st.clsIter with
    | cons b rest =>
      simp only [clsPhase, drawNext, hit]
      exact ih _
    | nil =>
      simp only [clsPhase, drawNext, hit]
      exact ih _

lemma augPhase_flag (d : AugDeps) (b0 : List Nat) (rest0 : List (List Nat)) (nl : Nat) :
    ∀ (N : Nat) (st st2 : LoopState),
      augPhase d (b0 :: rest0) nl N st = .ok st2 →
      st2.finishEpoch = (st.finishEpoch || decide (st.augIter.length < N)) := by
  intro N
  induction N with
  | zero =>
    intro st st2 h
    simp only [augPhase] at h
    cases h
    simp
  | succ n ih =>
    intro st st2 h
    cases hit : st.augIter with
    | cons b rest =>
      simp only [augPhase, drawNext, hit] at h
      cases hsrc : st.srcSequence with
      | none => simp [hsrc] at h
      | some src =>
        simp only [hsrc] at h
        rw [ih _ _ h]
        simp only [hit, List.length_cons, Bool.or_false]
        cases hf : st.finishEpoch
        · simp only [Bool.false_or]
          exact decide_eq_decide.mpr (by omega)
        · simp only [Bool.true_or]
    | nil =>
      simp only [augPhase, drawNext, hit] at h
      cases hsrc : st.srcSequence with
      | none => simp [hsrc] at h
      | some src =>
        simp only [hsrc] at h
        rw [ih _ _ h]
        simp only [hit, List.length_nil, Bool.or_true, Bool.true_or]
        have h0 : decide ((0 : Nat) < n + 1) = true := by
          exact decide_eq_true (by omega)
        rw [h0, Bool.or_true]

/-- Claim C1 (code bug): as written, generate never returns at all - name
    resolution of its very first statement fails on the undefined input_ids,
    raising a NameError on every call before one decoding step - whereas the
    claim says every call returns exactly one finalized sequence per example.
    The claim is the evident intent of the decoding loop it describes: on the
    loop and finalization themselves (the name slips resolved to their evident
    referents), the output has exactly one sequence per input example and any
    slot that never completed is force-finalized in the fallback block from
    its last sequence, so no example is dropped there. -/
theorem generate_nameerror_despite_fallback_intent
    (decode : Nat → List (List Nat) → List (List Score))
    (B K V L eosIdx startTok alpha : Nat) (pen : ℚ) (i : Nat)
    (hK : 1 ≤ K) (hKV : K ≤ V)
    (hdec : ∀ n ss, (decode n ss).length = B * K ∧ ∀ r ∈ decode n ss, r.length = V)
    (hi : i < B * K)
    (hnc : i ∉ (genLoop decode B K V L eosIdx startTok pen).complete_ind) :
    runStmts generateParams generateStmts = .error "input_ids" ∧
    (generate decode B K V L eosIdx startTok alpha pen).length = B ∧
    dget (fallback (genLoop decode B K V L eosIdx startTok pen)).complete_seqs i =
      (genLoop decode B K V L eosIdx startTok pen).seqs.getD i [] := by
  obtain ⟨hwf, hncz⟩ := genLoop_inv decode B K V L eosIdx startTok pen hK hKV hdec
  refine ⟨rfl, by simp [generate, finalize], ?_⟩
  have h0 : (genLoop decode B K V L eosIdx startTok pen).scores_save.getD i none
      = some 0 := hncz i hi hnc
  exact fallback_force (by rw [hwf.2.2]; exact hi) h0

/-- Witness for C1: a concrete one-example one-beam run in which no slot ever
    emits the end-of-sequence token; the entry point errors on input_ids, and
    the fallback of the loop itself finalizes slot 0 from its last sequence. -/
theorem generate_nameerror_despite_fallback_intent_witness :
    ((0 : Nat) < 1 * 1 ∧
      (0 : Nat) ∉ (genLoop decode0 1 1 2 1 1 9 (0 : ℚ)).complete_ind) ∧
    (runStmts generateParams generateStmts = .error "input_ids" ∧
      (generate decode0 1 1 2 1 1 9 0 (0 : ℚ)).length = 1 ∧
      dget (fallback (genLoop decode0 1 1 2 1 1 9 (0 : ℚ))).complete_seqs 0 =
        (genLoop decode0 1 1 2 1 1 9 (0 : ℚ)).seqs.getD 0 []) :=
  ⟨⟨by decide, by decide⟩,
   generate_nameerror_despite_fallback_intent decode0 1 1 2 1 1 9 0 (0 : ℚ) 0
     (by decide) (by decide) (fun n ss => ⟨rfl, by simp [decode0]⟩) (by decide)
     (by decide)⟩

/-- Claim C2 (code divergence): in the augmenter phase the back-propagated
    total is the sum of the MMD regularizer scaled by 10, a cross-entropy
    term and the mean-exponential adversarial term - but the cross-entropy
    target is the stale classifier-phase batch src_sequence ([3] here), not
    the augmenter micro-batch aug_src_sequence ([4]); with the claimed target
    the total would be 5, while the code computes 4. -/
theorem augmenter_ce_uses_stale_classifier_batch :
    trainRound d0 [[3]] [[4], [5]] 1 2 st0 = .ok stB ∧
    stB.augLossLog = [⟨0, 3, 1, 4⟩] ∧
    d0.ceFn ((d0.augForward [4]).2) [3] = 3 ∧
    d0.ceFn ((d0.augForward [4]).2) [4] = 4 ∧
    (⟨0, 3, 1, 4⟩ : AugLossParts).total ≠
      d0.mmdFn ((d0.augForward [4]).1) * 10 + d0.ceFn ((d0.augForward [4]).2) [4] +
        (⟨0, 3, 1, 4⟩ : AugLossParts).adv :=
  ⟨by decide, by decide, by decide, by decide, by decide⟩

/-- Claim C3 (code divergence): the corpus-append block of the augmentation
    pass subscripts the tokenizer output with the misspelled key
    attetntion_mask, which is not among the tokenizer output keys, so every
    batch of the pass raises a KeyError instead of appending; the correctly
    spelled attention_mask key does exist. -/
theorem text_augmentation_raises_keyerror (m labelRows : Nat) (c : ClsCorpus) :
    textAugBatchStep (clsTokenizerEncode m) labelRows c = .error "attetntion_mask" ∧
    "attetntion_mask" ∉ clsEncodeKeys ∧ "attention_mask" ∈ clsEncodeKeys :=
  ⟨rfl, by decide, by decide⟩

/-- Claim C4: exhaustion of the classifier source is recovered locally (its
    phase always succeeds and never changes finish_epoch), exhaustion of the
    augmenter source - exactly when its live iterator holds fewer than
    num_grad_accumulate batches - sets finish_epoch, and a round that ends
    with finish_epoch set terminates the epoch inner loop at once. -/
theorem iterator_exhaustion_semantics (d : AugDeps)
    (clsData augData : List (List Nat)) (N nl fuel : Nat)
    (st st1 st2 st3 : LoopState)
    (hc : clsData ≠ []) (ha : augData ≠ [])
    (h2 : augPhase d augData nl N st1 = .ok st2)
    (h3 : trainRound d clsData augData N nl st = .ok st3)
    (h4 : st3.finishEpoch = true) :
    (∃ stc, clsPhase clsData N st = .ok stc ∧ stc.finishEpoch = st.finishEpoch) ∧
    st2.finishEpoch = (st1.finishEpoch || decide (st1.augIter.length < N)) ∧
    innerLoop d clsData augData N nl (fuel + 1) st = .ok st3 := by
  obtain ⟨cb, crest, rfl⟩ := List.exists_cons_of_ne_nil hc
  obtain ⟨ab, arest, rfl⟩ := List.exists_cons_of_ne_nil ha
  refine ⟨?_, augPhase_flag d ab arest nl N st1 st2 h2, ?_⟩
  · obtain ⟨stc, hok, hfe, _, _⟩ := clsPhase_ok cb crest N st
    exact ⟨stc, hok, hfe⟩
  · simp [innerLoop, h3, h4]

/-- Witness for C4: a concrete round in which the augmenter iterator is empty
    (so it is exhausted mid-accumulation), the flag is set, and the inner loop
    stops after this round; the classifier iterator was also empty and was
    recovered without setting the flag. -/
theorem iterator_exhaustion_semantics_witness :
    (([[3]] : List (List Nat)) ≠ [] ∧ ([[4], [5]] : List (List Nat)) ≠ [] ∧
      augPhase d0 [[4], [5]] 2 1 stA = .ok stB ∧
      trainRound d0 [[3]] [[4], [5]] 1 2 st0 = .ok stB ∧ stB.finishEpoch = true) ∧
    ((∃ stc, clsPhase [[3]] 1 st0 = .ok stc ∧ stc.finishEpoch = st0.finishEpoch) ∧
      stB.finishEpoch = (stA.finishEpoch || decide (stA.augIter.length < 1)) ∧
      innerLoop d0 [[3]] [[4], [5]] 1 2 (0 + 1) st0 = .ok stB) :=
  ⟨⟨by decide, by decide, by decide, by decide, by decide⟩,
   iterator_exhaustion_semantics d0 [[3]] [[4], [5]] 1 2 0 st0 stA stB stB
     (by decide) (by decide) (by decide) (by decide) (by decide)⟩

/-- Claim C5: shift_tokens_right maps [a,b,c,d] with pad 0 and start 9 to
    [9,a,b,c]; every sentinel -100 in the shifted output is replaced by the
    pad id (so -100 never survives when pad differs from it); and applying
    the transform twice shifts again instead of being a no-op. -/
theorem shift_tokens_right_spec (a b c dd pad start : Int)
    (input : List (List Int)) (r : List Int)
    (ha : a ≠ -100) (hb : b ≠ -100) (hc : c ≠ -100) (hpad : pad ≠ -100)
    (hr : r ∈ input.map (shiftRow pad start)) :
    shift_tokens_right [[a, b, c, dd]] (some 0) 9 = .ok [[9, a, b, c]] ∧
    (-100 : Int) ∉ r ∧
    shift_tokens_right [[1, 2, 3, 4]] (some 0) 9 = .ok [[9, 1, 2, 3]] ∧
    shift_tokens_right [[9, 1, 2, 3]] (some 0) 9 = .ok [[9, 9, 1, 2]] ∧
    ([[9, 9, 1, 2]] : List (List Int)) ≠ [[9, 1, 2, 3]] := by
  refine ⟨?_, ?_, by decide, by decide, by decide⟩
  · simp [shift_tokens_right, shiftRow, ha, hb, hc]
  · rcases List.mem_map.mp hr with ⟨row, _, hreq⟩
    subst hreq
    intro hmem
    simp only [shiftRow] at hmem
    rcases List.mem_map.mp hmem with ⟨t, _, hteq⟩
    by_cases ht : t = -100
    · rw [if_pos ht] at hteq
      exact hpad hteq
    · rw [if_neg ht] at hteq
      exact ht hteq

/-- Witness for C5: concrete instantiation with a row containing the sentinel
    -100 and pad id 5. -/
theorem shift_tokens_right_spec_witness :
    ((1 : Int) ≠ -100 ∧ (2 : Int) ≠ -100 ∧ (3 : Int) ≠ -100 ∧ (5 : Int) ≠ -100 ∧
      ([9, 5] : List Int) ∈ ([[-100, 7]] : List (List Int)).map (shiftRow 5 9)) ∧
    (shift_tokens_right [[1, 2, 3, 4]] (some 0) 9 = .ok [[9, 1, 2, 3]] ∧
      (-100 : Int) ∉ ([9, 5] : List Int) ∧
      shift_tokens_right [[1, 2, 3, 4]] (some 0) 9 = .ok [[9, 1, 2, 3]] ∧
      shift_tokens_right [[9, 1, 2, 3]] (some 0) 9 = .ok [[9, 9, 1, 2]] ∧
      ([[9, 9, 1, 2]] : List (List Int)) ≠ [[9, 1, 2, 3]]) :=
  ⟨⟨by decide, by decide, by decide, by decide, by decide⟩,
   shift_tokens_right_spec 1 2 3 4 5 9 [[-100, 7]] [9, 5]
     (by decide) (by decide) (by decide) (by decide) (by decide)⟩

/-- Claim C6: before selecting a winner the decoder divides every saved score
    by ((len + beam_size) ^ beam_alpha) / ((beam_size + 1) ^ beam_alpha) and
    the chosen slot maximizes the normalized (never the raw) score over the
    example's beam_size candidates; concretely, of two completed hypotheses
    with equal raw score -4 and lengths 3 and 5, the longer one wins, so the
    shorter is not unconditionally preferred. -/
theorem length_normalized_argmax (st : GenState) (B K alpha j m : Nat)
    (hK : 1 ≤ K) (hj : j < B) (hm : m < K) :
    sLe ((normScores B K alpha (fallback st)).getD (j * K + m) none)
        ((normScores B K alpha (fallback st)).getD
          (winnerSlot B K alpha (fallback st) j) none) = true ∧
    (normScores B K alpha (fallback st)).getD (j * K + m) none =
      sDivQ ((fallback st).scores_save.getD (j * K + m) none)
        (lengthPenalty K alpha (dget (fallback st).complete_seqs (j * K + m)).length) ∧
    (finalize 1 2 1 exSt = [[9, 4, 4, 4, 2]] ∧
      exSt.scores_save.getD 0 none = exSt.scores_save.getD 1 none ∧
      (dget exSt.complete_seqs 0).length ≠ (dget exSt.complete_seqs 1).length) := by
  have hjm : j * K + m < B * K := by
    have h1 : j * K + K ≤ B * K := by
      calc j * K + K = (j + 1) * K := by ring
      _ ≤ B * K := Nat.mul_le_mul_right K hj
    omega
  have hnslen : (normScores B K alpha (fallback st)).length = B * K :=
    normScores_length B K alpha (fallback st)
  have hslicelen :
      (((normScores B K alpha (fallback st)).drop (j * K)).take K).length = K :=
    slice_length (normScores B K alpha (fallback st)) hnslen hj
  have hargbound :
      argmaxIdx (((normScores B K alpha (fallback st)).drop (j * K)).take K) < K := by
    have hne : (((normScores B K alpha (fallback st)).drop (j * K)).take K) ≠ [] := by
      intro hnil
      rw [hnil] at hslicelen
      simp only [List.length_nil] at hslicelen
      omega
    have hb := argmaxIdx_lt_length _ hne
    omega
  refine ⟨?_, ?_, by decide⟩
  · have h1 : (normScores B K alpha (fallback st)).getD (j * K + m) none =
        (((normScores B K alpha (fallback st)).drop (j * K)).take K).getD m none :=
      (getD_drop_take hm).symm
    have h2 : (normScores B K alpha (fallback st)).getD
        (winnerSlot B K alpha (fallback st) j) none =
        (((normScores B K alpha (fallback st)).drop (j * K)).take K).getD
          (argmaxIdx (((normScores B K alpha (fallback st)).drop (j * K)).take K))
          none := by
      simp only [winnerSlot]
      exact (getD_drop_take hargbound).symm
    rw [h1, h2]
    exact argmaxIdx_max _ m (by omega)
  · exact getD_range_map (B * K) (j * K + m)
      (fun i => sDivQ ((fallback st).scores_save.getD i none)
        (lengthPenalty K alpha (dget (fallback st).complete_seqs i).length))
      none hjm

/-- Witness for C6: the normalized-score dominance of the winner applied to
    the concrete exit state with two equal-raw-score hypotheses. -/
theorem length_normalized_argmax_witness :
    ((1 : Nat) ≤ 2 ∧ (0 : Nat) < 1 ∧ (0 : Nat) < 2) ∧
    (sLe ((normScores 1 2 1 (fallback exSt)).getD (0 * 2 + 0) none)
        ((normScores 1 2 1 (fallback exSt)).getD
          (winnerSlot 1 2 1 (fallback exSt) 0) none) = true ∧
      (normScores 1 2 1 (fallback exSt)).getD (0 * 2 + 0) none =
        sDivQ ((fallback exSt).scores_save.getD (0 * 2 + 0) none)
          (lengthPenalty 2 1 (dget (fallback exSt).complete_seqs (0 * 2 + 0)).length) ∧
      (finalize 1 2 1 exSt = [[9, 4, 4, 4, 2]] ∧
        exSt.scores_save.getD 0 none = exSt.scores_save.getD 1 none ∧
        (dget exSt.complete_seqs 0).length ≠ (dget exSt.complete_seqs 1).length)) :=
  ⟨⟨by decide, by decide, by decide⟩,
   length_normalized_argmax exSt 1 2 1 0 0 (by decide) (by decide) (by decide)⟩

/-- Claim C7: once a slot index is in complete_ind, a later end-of-sequence
    detection at the same index changes neither its saved score nor its
    stored sequence, and the index stays complete. -/
theorem complete_slot_never_overwritten (eosIdx : Nat) (next_inds : List Nat)
    (top_k : List Score) (seqs : List (List Nat)) (scores_save : List Score)
    (complete_seqs : List (Nat × List Nat)) (complete_ind : List Nat) (i : Nat)
    (hi : i ∈ complete_ind) :
    (saveComplete eosIdx next_inds top_k seqs scores_save complete_seqs
        complete_ind).1.getD i none = scores_save.getD i none ∧
    dget (saveComplete eosIdx next_inds top_k seqs scores_save complete_seqs
        complete_ind).2.1 i = dget complete_seqs i ∧
    i ∈ (saveComplete eosIdx next_inds top_k seqs scores_save complete_seqs
        complete_ind).2.2 := by
  have hnotadd : i ∉ addInd eosIdx next_inds complete_ind := by
    simp [addInd, List.mem_filter, hi]
  by_cases h1 : eosIdx ∈ next_inds
  · by_cases h2 : addInd eosIdx next_inds complete_ind ≠ []
    · simp only [saveComplete, if_pos h1, if_pos h2]
      exact ⟨getD_foldl_set_notin _ _ _ hnotadd,
             dget_foldl_dset_notin _ _ hnotadd,
             List.mem_append_left _ hi⟩
    · simp only [saveComplete, if_pos h1, if_neg h2]
      exact ⟨trivial, trivial, List.mem_append_left _ hi⟩
  · simp only [saveComplete, if_neg h1]
    exact ⟨trivial, trivial, hi⟩

/-- Witness for C7: slot 0 is already complete with saved score -3; the
    end-of-sequence token re-detected at slot 0 does not overwrite it. -/
theorem complete_slot_never_overwritten_witness :
    ((0 : Nat) ∈ ([0] : List Nat)) ∧
    ((saveComplete 2 [2] [some (-5)] [[9, 2]] [some (-3)] [(0, [9, 2])] [0]).1.getD
        0 none = ([some (-3)] : List Score).getD 0 none ∧
      dget (saveComplete 2 [2] [some (-5)] [[9, 2]] [some (-3)] [(0, [9, 2])]
        [0]).2.1 0 = dget [(0, [9, 2])] 0 ∧
      0 ∈ (saveComplete 2 [2] [some (-5)] [[9, 2]] [some (-3)] [(0, [9, 2])]
        [0]).2.2) :=
  ⟨by decide,
   complete_slot_never_overwritten 2 [2] [some (-5)] [[9, 2]] [some (-3)]
     [(0, [9, 2])] [0] 0 (by decide)⟩

/-- Claim C8: with repetition_penalty = 0 the guard of the penalty block is
    false at every step, so the log-softmax scores are left completely
    unmodified and neither the multiplication nor the division path (hence no
    division by zero) is taken. -/
theorem repetition_penalty_zero_noop (step : Nat) (next_ix : List Nat)
    (sc : List (List Score)) : applyRepPenalty step 0 next_ix sc = sc := by
  unfold applyRepPenalty
  simp

/-- Claim C9: the epoch-end block writes a checkpoint exactly when the
    validation MMD loss strictly improves on the best seen, the checkpoint
    carries the full state (epoch, both models, both optimizers, both
    schedulers, scaler), and on the non-improving path with no previously
    improving epoch the logging line raises a NameError on best_epoch instead
    of logging. -/
theorem checkpoint_iff_strict_improvement (snap : Snapshots) (e : Nat) (v : ℚ)
    (st : CkptState) (h : v < st.bestValLoss) :
    (∀ s2 e2 v2 st2, savesCheckpoint (epochEndCheckpoint s2 e2 v2 st2) =
        decide (v2 < st2.bestValLoss)) ∧
    epochEndCheckpoint snap e v st =
      .ok (⟨v, some e⟩,
        some ⟨e, snap.cls_model, snap.aug_model, snap.cls_optimizer,
          snap.aug_optimizer, snap.cls_scheduler, snap.aug_scheduler, snap.scaler⟩,
        none) ∧
    epochEndCheckpoint snap0 1 1500 ⟨1000, none⟩ = .error "best_epoch" := by
  refine ⟨?_, ?_, by decide⟩
  · intro s2 e2 v2 st2
    by_cases hlt : v2 < st2.bestValLoss
    · simp [epochEndCheckpoint, savesCheckpoint, hlt]
    · cases hbe : st2.bestEpoch <;>
        simp [epochEndCheckpoint, savesCheckpoint, hlt, hbe]
  · simp [epochEndCheckpoint, h]

/-- Witness for C9: an improving epoch writes the full checkpoint. -/
theorem checkpoint_iff_strict_improvement_witness :
    ((0 : ℚ) < (⟨1, none⟩ : CkptState).bestValLoss) ∧
    ((∀ s2 e2 v2 st2, savesCheckpoint (epochEndCheckpoint s2 e2 v2 st2) =
        decide (v2 < st2.bestValLoss)) ∧
      epochEndCheckpoint snap0 1 0 ⟨1, none⟩ =
        .ok (⟨0, some 1⟩,
          some ⟨1, snap0.cls_model, snap0.aug_model, snap0.cls_optimizer,
            snap0.aug_optimizer, snap0.cls_scheduler, snap0.aug_scheduler,
            snap0.scaler⟩,
          none) ∧
      epochEndCheckpoint snap0 1 1500 ⟨1000, none⟩ = .error "best_epoch") :=
  ⟨by norm_num, checkpoint_iff_strict_improvement snap0 1 0 ⟨1, none⟩ (by norm_num)⟩

/-- Claim C10: for every argument tuple, TransformerModel.generate fails by
    name resolution before completing one decoding step: its first statement
    reads input_ids, which is neither a parameter nor a module global, so a
    NameError is raised there; moreover its score computation reads
    decoder_out, a name no statement binds and which is neither a parameter
    nor a module global. Name resolution inspects no argument values, so the
    result holds for every call. -/
theorem generate_raises_nameerror :
    runStmts generateParams generateStmts = .error "input_ids" ∧
    "input_ids" ∉ generateParams ∧ "input_ids" ∉ modelGlobals ∧
    (∃ s ∈ generateStmts, "decoder_out" ∈ s.reads) ∧
    (∀ s ∈ generateStmts, "decoder_out" ∉ s.binds) ∧
    "decoder_out" ∉ generateParams ∧ "decoder_out" ∉ modelGlobals := by
  refine ⟨rfl, by decide, by decide, ?_, by decide, by decide, by decide⟩
  exact ⟨⟨["F", "self", "decoder_out"], ["scores"]⟩, by decide, by decide⟩
